import Mathlib

/-!
Shallow embedding of the DeTrack proxy core (src/tracker_blocker.rs,
src/ai_tracker.rs, src/shared_state.rs, src/run_proxy.rs) and proofs of the
specification claims about it.

Conventions of the embedding:
* Rust `HashSet<String>` / `HashMap<K, V>` become Lean `List String` /
  association lists `List (K × V)`; the iteration order of a hash container is
  an arbitrary order of the same elements, so order-independence facts are
  stated over permutations.
* Rust `Mutex`-guarded mutation becomes explicit state passing; the poisoned
  lock branches (which only skip the mutation) are not modelled.
* File-system writes become an explicit outcome parameter (`saveResult`),
  since their success is decided by the environment.
* `f32` arithmetic in the classifier's confidence score is kept abstract: the
  comparison `confidence >= threshold` performed by
  `AITracker::is_likely_tracker` is a parameter `score`, so every theorem
  about the classifier holds for all possible scoring outcomes.
* String case-folding and trimming are modelled per character over
  `String.data` (ASCII-faithful, and kernel-computable, unlike the
  `String.toLower`/`String.endsWith` wrappers).
-/

namespace DeTrack

/-- ASCII lowercasing of a string, character by character
(models Rust `str::to_lowercase` on ASCII text). -/
def toLowerS (s : String) : String := ⟨s.data.map Char.toLower⟩

/-- `endsWithS s suffix` models Rust `str::ends_with`. -/
def endsWithS (s suffix : String) : Bool := suffix.data.isSuffixOf s.data

/-- Whitespace trimming from both ends (models Rust `str::trim`). -/
def trimS (s : String) : String :=
  ⟨((s.data.dropWhile Char.isWhitespace).reverse.dropWhile Char.isWhitespace).reverse⟩

/-! ## TrackerBlocker (src/tracker_blocker.rs) -/

/-- Embeds `struct TrackerBlocker`: the blocked-domain set and the
tracking-parameter vocabulary.  The `HashSet<String>` fields become lists;
the file path is irrelevant to the in-memory behaviour. -/
structure TrackerBlocker where
  trackers : List String
  tracking_params : List String

/-- The predefined tracking-parameter vocabulary built in `TrackerBlocker::new`. -/
def trackingParamVocabulary : List String :=
  ["utm_source", "utm_medium", "utm_campaign", "utm_term", "utm_content",
   "fbclid", "gclid", "msclkid", "dclid", "twclid",
   "_ga", "_hsenc", "_openstat", "ref", "referrer", "source",
   "mc_cid", "mc_eid",
   "wickedid",
   "yclid"]

/-- Embeds `TrackerBlocker::is_blocked`: fail-open on an empty set, else an
exact match of the lowercased host, else a `"." + tracker` suffix match over
the set (the source's early-return loop is the boolean disjunction). -/
def is_blocked (b : TrackerBlocker) (host : String) : Bool :=
  if b.trackers.isEmpty then false
  else
    let h := toLowerS host
    b.trackers.contains h || b.trackers.any (fun tracker => endsWithS h ("." ++ tracker))

/-- Embeds `TrackerBlocker::is_tracking_parameter`: membership of the
lowercased name in the tracking-parameter vocabulary. -/
def is_tracking_parameter (b : TrackerBlocker) (param_name : String) : Bool :=
  b.tracking_params.contains (toLowerS param_name)

/-- Embeds `TrackerBlocker::add_tracker` together with its call to
`save_trackers`.  The write outcome of `fs::write` is the environment's
choice, passed as `saveResult` (`none` = success, `some e` = an I/O error
rendered as a message).  On save failure the in-memory insertion is kept
(the source does not roll it back). -/
def tb_add_tracker (saveResult : Option String) (b : TrackerBlocker)
    (domain : String) : Option String × TrackerBlocker :=
  let d := toLowerS (trimS domain)
  if b.trackers.contains d then (none, b)
  else
    let b' : TrackerBlocker := { b with trackers := b.trackers ++ [d] }
    match saveResult with
    | none => (none, b')
    | some e => (some e, b')

theorem is_blocked_empty (b : TrackerBlocker) (host : String)
    (h : b.trackers = []) : is_blocked b host = false := by
  simp [is_blocked, h]

theorem is_blocked_iff (b : TrackerBlocker) (host : String) :
    is_blocked b host = true ↔
      toLowerS host ∈ b.trackers ∨
        ∃ e ∈ b.trackers, endsWithS (toLowerS host) ("." ++ e) = true := by
  unfold is_blocked
  by_cases hemp : b.trackers = []
  · simp [hemp]
  · rw [if_neg (by simpa [List.isEmpty_iff] using hemp)]
    simp [List.any_eq_true, List.elem_iff]

theorem is_blocked_perm (b b2 : TrackerBlocker) (host : String)
    (hperm : b.trackers.Perm b2.trackers) :
    is_blocked b host = is_blocked b2 host := by
  rw [Bool.eq_iff_iff, is_blocked_iff, is_blocked_iff]
  constructor
  · rintro (h | ⟨e, he, hend⟩)
    · exact Or.inl (hperm.mem_iff.mp h)
    · exact Or.inr ⟨e, hperm.subset he, hend⟩
  · rintro (h | ⟨e, he, hend⟩)
    · exact Or.inl (hperm.mem_iff.mpr h)
    · exact Or.inr ⟨e, hperm.symm.subset he, hend⟩

/-- C1: `is_blocked` blocks nothing on an empty blocklist; otherwise it
returns `true` exactly when the lowercased host equals some entry or ends
with `"." + entry` for some entry, and its boolean result is invariant under
reordering (permutation) of the tracker set. -/
theorem is_blocked_correct (b b2 : TrackerBlocker) (host : String)
    (hperm : b.trackers.Perm b2.trackers) :
    (b.trackers = [] → is_blocked b host = false) ∧
    (is_blocked b host = true ↔
      toLowerS host ∈ b.trackers ∨
        ∃ e ∈ b.trackers, endsWithS (toLowerS host) ("." ++ e) = true) ∧
    is_blocked b host = is_blocked b2 host :=
  ⟨is_blocked_empty b host, is_blocked_iff b host, is_blocked_perm b b2 host hperm⟩

/-- Witness for C1 at concrete data: the blocklist `["example.com", "b.org"]`
(against its reordering) blocks `ads.EXAMPLE.com` by suffix match. -/
theorem is_blocked_correct_witness :
    is_blocked { trackers := ["example.com", "b.org"],
                 tracking_params := trackingParamVocabulary } "ads.EXAMPLE.com" = true ∧
    is_blocked { trackers := ["example.com", "b.org"],
                 tracking_params := trackingParamVocabulary } "ads.EXAMPLE.com" =
      is_blocked { trackers := ["b.org", "example.com"],
                   tracking_params := trackingParamVocabulary } "ads.EXAMPLE.com" := by
  have h := is_blocked_correct
    { trackers := ["example.com", "b.org"], tracking_params := trackingParamVocabulary }
    { trackers := ["b.org", "example.com"], tracking_params := trackingParamVocabulary }
    "ads.EXAMPLE.com" (List.Perm.swap _ _ _)
  exact ⟨h.2.1.mpr (Or.inr ⟨"example.com", by decide, by decide⟩), h.2.2⟩

/-! ## StateHub log buffer (src/shared_state.rs, `append_log`) -/

/-- Embeds `SharedState::append_log` on the guarded `Vec<String>`: prepend a
wall-clock timestamp (`now`, chosen by the environment) to the entry, push
it, and drop the oldest element once the length exceeds 10000. -/
def append_log (logs : List String) (now entry : String) : List String :=
  let timestamped := "[" ++ now ++ "] " ++ entry
  let logs' := logs ++ [timestamped]
  if logs'.length > 10000 then logs'.drop 1 else logs'

/-- C8: starting from a buffer of at most 10000 entries, `append_log` keeps
the bound; when the push would exceed the ceiling the evicted element is
exactly the oldest (first) one; and the new last element is the input entry
with the wall-clock timestamp prepended. -/
theorem append_log_correct (logs : List String) (now entry : String)
    (hlen : logs.length ≤ 10000) :
    (append_log logs now entry).length ≤ 10000 ∧
    (logs.length = 10000 →
      append_log logs now entry = logs.tail ++ ["[" ++ now ++ "] " ++ entry]) ∧
    (logs.length < 10000 →
      append_log logs now entry = logs ++ ["[" ++ now ++ "] " ++ entry]) ∧
    (append_log logs now entry).getLast? = some ("[" ++ now ++ "] " ++ entry) := by
  unfold append_log
  have hlapp : (logs ++ ["[" ++ now ++ "] " ++ entry]).length = logs.length + 1 := by
    simp
  rcases lt_or_eq_of_le hlen with hlt | heq
  · have hcond : ¬((logs ++ ["[" ++ now ++ "] " ++ entry]).length > 10000) := by omega
    rw [if_neg hcond]
    refine ⟨by omega, fun h => absurd h (by omega), fun _ => rfl, ?_⟩
    simp
  · have hcond : (logs ++ ["[" ++ now ++ "] " ++ entry]).length > 10000 := by omega
    rw [if_pos hcond]
    have hne : logs ≠ [] := by
      intro h; rw [h] at heq; simp at heq
    refine ⟨?_, fun _ => ?_, fun h => absurd heq (by omega), ?_⟩
    · have : (logs ++ ["[" ++ now ++ "] " ++ entry]).length = 10001 := by omega
      rw [List.length_drop, this]
    · rw [List.drop_one, List.tail_append_of_ne_nil hne]
    · rw [List.drop_one, List.tail_append_of_ne_nil hne]
      simp

/-- Witness for C8: appending to a singleton buffer keeps the bound and
appends the timestamped entry at the end. -/
theorem append_log_correct_witness :
    (append_log ["old"] "12:00:00" "hello").length ≤ 10000 ∧
    append_log ["old"] "12:00:00" "hello" = ["old", "[12:00:00] hello"] := by
  have h := append_log_correct ["old"] "12:00:00" "hello" (by decide)
  exact ⟨h.1, by simpa using h.2.2.1 (by decide)⟩

/-! ## AITracker (src/ai_tracker.rs)

The classifier state.  The `HashMap<String, bool>` decision cache becomes an
association list; the `f32` fields (`confidence_threshold`, the feature
weights) only feed the confidence comparison, which is abstracted as the
`score` argument of `is_likely_tracker`, so they are not part of the model
state. -/

structure AITracker where
  enabled : Bool
  known_trackers : List String
  known_legitimate : List String
  decision_cache : List (String × Bool)
  detection_count : Nat
  false_positive_count : Nat
  false_negative_count : Nat

/-- Embeds `AITracker::new`. -/
def AITracker.new : AITracker :=
  { enabled := true
    known_trackers := []
    known_legitimate := []
    decision_cache := []
    detection_count := 0
    false_positive_count := 0
    false_negative_count := 0 }

/-- `HashMap::get` on the decision cache. -/
def cacheLookup (cache : List (String × Bool)) (key : String) : Option Bool :=
  (cache.find? (fun p => p.1 == key)).map (·.2)

/-- `HashMap::remove` on the decision cache. -/
def cacheRemove (cache : List (String × Bool)) (key : String) :
    List (String × Bool) :=
  cache.filter (fun p => !(p.1 == key))

/-- `HashMap::insert` on the decision cache: replaces any existing binding of
the key (modelled, lookup-equivalently, as removing the key's binding and
appending the new one). -/
def cacheInsert (cache : List (String × Bool)) (key : String) (v : Bool) :
    List (String × Bool) :=
  cacheRemove cache key ++ [(key, v)]

/-- Embeds `AITracker::is_likely_tracker`.  It returns the verdict together
with the updated classifier state.  `score url host referer` abstracts the
source's `confidence >= threshold` comparison over the extracted `f32`
features. -/
def is_likely_tracker (score : String → String → Option String → Bool)
    (t : AITracker) (url host : String) (referer : Option String) :
    Bool × AITracker :=
  if !t.enabled then (false, t)
  else
    match cacheLookup t.decision_cache url with
    | some decision => (decision, t)
    | none =>
      if t.known_trackers.contains host then
        (true, { t with decision_cache := cacheInsert t.decision_cache url true
                        detection_count := t.detection_count + 1 })
      else if t.known_legitimate.contains host then
        (false, { t with decision_cache := cacheInsert t.decision_cache url false })
      else
        let is_tracker := score url host referer
        if is_tracker then
          (true, { t with decision_cache := cacheInsert t.decision_cache url true
                          detection_count := t.detection_count + 1 })
        else
          (false, { t with decision_cache := cacheInsert t.decision_cache url false })

/-- Embeds `AITracker::report_false_positive`. -/
def report_false_positive (t : AITracker) (domain : String) : AITracker :=
  { t with
    false_positive_count := t.false_positive_count + 1
    known_legitimate :=
      if t.known_legitimate.contains domain then t.known_legitimate
      else t.known_legitimate ++ [domain]
    known_trackers := t.known_trackers.filter (fun d => !(d == domain))
    decision_cache := cacheRemove t.decision_cache domain }

/-- Embeds `AITracker::report_false_negative`. -/
def report_false_negative (t : AITracker) (domain : String) : AITracker :=
  { t with
    false_negative_count := t.false_negative_count + 1
    known_trackers :=
      if t.known_trackers.contains domain then t.known_trackers
      else t.known_trackers ++ [domain]
    known_legitimate := t.known_legitimate.filter (fun d => !(d == domain))
    decision_cache := cacheRemove t.decision_cache domain }

/-- Embeds `AITracker::reset_stats`. -/
def ai_reset_stats (t : AITracker) : AITracker :=
  { t with detection_count := 0, false_positive_count := 0, false_negative_count := 0 }

/-- Embeds `AITracker::clear_cache`. -/
def ai_clear_cache (t : AITracker) : AITracker :=
  { t with decision_cache := [] }

/-- The state-mutating operations of the classifier, for stating invariants
over arbitrary operation sequences. -/
inductive AIOp where
  | classify (score : String → String → Option String → Bool)
      (url host : String) (referer : Option String)
  | reportFalsePositive (domain : String)
  | reportFalseNegative (domain : String)
  | enable
  | disable
  | resetStats
  | clearCache

def applyAIOp (t : AITracker) : AIOp → AITracker
  | .classify score url host referer => (is_likely_tracker score t url host referer).2
  | .reportFalsePositive d => report_false_positive t d
  | .reportFalseNegative d => report_false_negative t d
  | .enable => { t with enabled := true }
  | .disable => { t with enabled := false }
  | .resetStats => ai_reset_stats t
  | .clearCache => ai_clear_cache t

def runAIOps (t : AITracker) (ops : List AIOp) : AITracker :=
  ops.foldl applyAIOp t

/-- The mutual-exclusion invariant of the two feedback lists. -/
def Exclusive (t : AITracker) : Prop :=
  ∀ d, ¬(d ∈ t.known_trackers ∧ d ∈ t.known_legitimate)

theorem cacheLookup_cacheRemove (cache : List (String × Bool)) (key : String) :
    cacheLookup (cacheRemove cache key) key = none := by
  unfold cacheLookup cacheRemove
  induction cache with
  | nil => rfl
  | cons p rest ih =>
    by_cases hp : p.1 == key
    · simpa [hp] using ih
    · simp only [List.filter_cons, hp]
      simpa [List.find?, hp] using ih

theorem find?_cacheRemove_none (cache : List (String × Bool)) (key : String) :
    (cacheRemove cache key).find? (fun p => p.1 == key) = none := by
  unfold cacheRemove
  induction cache with
  | nil => rfl
  | cons p rest ih =>
    by_cases hp : p.1 == key <;> simp [List.filter_cons, hp, List.find?_cons, ih]

theorem find?_append_none {α : Type} (l1 l2 : List α) (p : α → Bool)
    (h : l1.find? p = none) : (l1 ++ l2).find? p = l2.find? p := by
  induction l1 with
  | nil => simp
  | cons x rest ih =>
    rw [List.find?_cons] at h
    cases hx : p x
    · rw [hx] at h
      simp only [List.cons_append, List.find?_cons, hx]
      exact ih h
    · rw [hx] at h; simp at h

theorem cacheLookup_cacheInsert (cache : List (String × Bool)) (key : String)
    (v : Bool) : cacheLookup (cacheInsert cache key v) key = some v := by
  unfold cacheInsert cacheLookup
  rw [find?_append_none _ _ _ (find?_cacheRemove_none cache key)]
  simp [List.find?]

/-- After any enabled call, the URL is cached with the returned verdict and
the classifier stays enabled. -/
theorem classify_caches_result (score : String → String → Option String → Bool)
    (t : AITracker) (url host : String) (referer : Option String)
    (hen : t.enabled = true) :
    cacheLookup (is_likely_tracker score t url host referer).2.decision_cache url
      = some (is_likely_tracker score t url host referer).1 ∧
    (is_likely_tracker score t url host referer).2.enabled = true := by
  cases hlk : cacheLookup t.decision_cache url with
  | some v => simp [is_likely_tracker, hen, hlk]
  | none =>
    simp only [is_likely_tracker, hen, Bool.not_true, Bool.false_eq_true, if_false, hlk]
    split_ifs <;> simp [cacheLookup_cacheInsert, hen]

/-- A concrete classifier state whose decision cache already holds a URL,
for the C6 witness. -/
def cachedTrackerExample : AITracker :=
  { AITracker.new with decision_cache := [("http://cached.example/x", false)] }

theorem is_likely_tracker_preserves_lists
    (score : String → String → Option String → Bool)
    (t : AITracker) (url host : String) (referer : Option String) :
    (is_likely_tracker score t url host referer).2.known_trackers = t.known_trackers ∧
    (is_likely_tracker score t url host referer).2.known_legitimate = t.known_legitimate := by
  unfold is_likely_tracker
  by_cases he : t.enabled <;>
    simp only [he, Bool.not_true, Bool.not_false, if_true, if_false]
  · cases cacheLookup t.decision_cache url with
    | some d => simp
    | none => split_ifs <;> simp
  · simp

theorem mem_rfp_legit (t : AITracker) (d : String) :
    d ∈ (report_false_positive t d).known_legitimate := by
  by_cases hc : d ∈ t.known_legitimate <;> simp [report_false_positive, hc]

theorem not_mem_rfp_trackers (t : AITracker) (d : String) :
    d ∉ (report_false_positive t d).known_trackers := by
  intro hmem
  have := List.of_mem_filter (p := fun x => !(x == d)) hmem
  simp at this

theorem mem_rfn_trackers (t : AITracker) (d : String) :
    d ∈ (report_false_negative t d).known_trackers := by
  by_cases hc : d ∈ t.known_trackers <;> simp [report_false_negative, hc]

theorem not_mem_rfn_legit (t : AITracker) (d : String) :
    d ∉ (report_false_negative t d).known_legitimate := by
  intro hmem
  have := List.of_mem_filter (p := fun x => !(x == d)) hmem
  simp at this

theorem mem_rfp_legit_cases (t : AITracker) (dom d : String)
    (hd : d ∈ (report_false_positive t dom).known_legitimate) :
    d = dom ∨ d ∈ t.known_legitimate := by
  unfold report_false_positive at hd
  simp only at hd
  split at hd
  · exact Or.inr hd
  · rcases List.mem_append.mp hd with h1 | h1
    · exact Or.inr h1
    · simp at h1; exact Or.inl h1

theorem mem_rfn_trackers_cases (t : AITracker) (dom d : String)
    (hd : d ∈ (report_false_negative t dom).known_trackers) :
    d = dom ∨ d ∈ t.known_trackers := by
  unfold report_false_negative at hd
  simp only at hd
  split at hd
  · exact Or.inr hd
  · rcases List.mem_append.mp hd with h1 | h1
    · exact Or.inr h1
    · simp at h1; exact Or.inl h1

theorem exclusive_applyAIOp (t : AITracker) (op : AIOp) (h : Exclusive t) :
    Exclusive (applyAIOp t op) := by
  cases op with
  | classify score url host referer =>
    intro d hd
    have hp := is_likely_tracker_preserves_lists score t url host referer
    simp only [applyAIOp] at hd
    exact h d ⟨hp.1 ▸ hd.1, hp.2 ▸ hd.2⟩
  | reportFalsePositive dom =>
    intro d hd
    simp only [applyAIOp] at hd
    rcases hd with ⟨hdt, hdl⟩
    have hdd : ¬(d = dom) := by
      intro hEq
      have := List.of_mem_filter (p := fun x => !(x == dom)) hdt
      simp [hEq] at this
    have hdt' : d ∈ t.known_trackers := List.mem_of_mem_filter hdt
    rcases mem_rfp_legit_cases t dom d hdl with h1 | h1
    · exact hdd h1
    · exact h d ⟨hdt', h1⟩
  | reportFalseNegative dom =>
    intro d hd
    simp only [applyAIOp] at hd
    rcases hd with ⟨hdt, hdl⟩
    have hdd : ¬(d = dom) := by
      intro hEq
      have := List.of_mem_filter (p := fun x => !(x == dom)) hdl
      simp [hEq] at this
    have hdl' : d ∈ t.known_legitimate := List.mem_of_mem_filter hdl
    rcases mem_rfn_trackers_cases t dom d hdt with h1 | h1
    · exact hdd h1
    · exact h d ⟨h1, hdl'⟩
  | enable => exact h
  | disable => exact h
  | resetStats => exact h
  | clearCache => exact h

theorem exclusive_runAIOps (ops : List AIOp) :
    Exclusive (runAIOps AITracker.new ops) := by
  have hgen : ∀ (ops : List AIOp) (t : AITracker), Exclusive t →
      Exclusive (runAIOps t ops) := by
    intro ops
    induction ops with
    | nil => intro t ht; exact ht
    | cons op rest ih =>
      intro t ht
      exact ih (applyAIOp t op) (exclusive_applyAIOp t op ht)
  exact hgen ops AITracker.new (by intro d hd; simp [AITracker.new] at hd)

/-- C5: after `report_false_positive d` the domain is in `known_legitimate`,
out of `known_trackers`, and classifying `d` (used as both URL and host)
returns `false` for every possible scoring; symmetrically for
`report_false_negative`; and no sequence of classifier operations ever puts a
domain in both feedback lists at once. -/
theorem classifier_feedback_consistency
    (t : AITracker) (d : String)
    (score : String → String → Option String → Bool) (referer : Option String)
    (ops : List AIOp) :
    (d ∈ (report_false_positive t d).known_legitimate ∧
     d ∉ (report_false_positive t d).known_trackers ∧
     (is_likely_tracker score (report_false_positive t d) d d referer).1 = false) ∧
    (d ∈ (report_false_negative t d).known_trackers ∧
     d ∉ (report_false_negative t d).known_legitimate) ∧
    Exclusive (runAIOps AITracker.new ops) := by
  refine ⟨⟨mem_rfp_legit t d, not_mem_rfp_trackers t d, ?_⟩,
    ⟨mem_rfn_trackers t d, not_mem_rfn_legit t d⟩, exclusive_runAIOps ops⟩
  have hlk : cacheLookup (report_false_positive t d).decision_cache d = none :=
    cacheLookup_cacheRemove t.decision_cache d
  have hnt := not_mem_rfp_trackers t d
  have hnl := mem_rfp_legit t d
  by_cases he : (report_false_positive t d).enabled
  · simp [is_likely_tracker, he, hlk, hnt, hnl]
  · simp [is_likely_tracker, he]

/-- C6: with classification enabled, a call whose URL is already in the
decision cache returns the cached verdict and leaves the classifier state —
cache, feedback lists and all counters — completely unchanged; hence a second
call with the same URL repeats the first call's verdict with no further side
effects. -/
theorem classify_cache_no_side_effects
    (score : String → String → Option String → Bool)
    (t : AITracker) (url host : String) (referer : Option String)
    (hen : t.enabled = true) :
    (∀ v, cacheLookup t.decision_cache url = some v →
      is_likely_tracker score t url host referer = (v, t)) ∧
    is_likely_tracker score (is_likely_tracker score t url host referer).2
        url host referer
      = is_likely_tracker score t url host referer := by
  constructor
  · intro v hv
    simp [is_likely_tracker, hen, hv]
  · have h := classify_caches_result score t url host referer hen
    cases hr : is_likely_tracker score t url host referer with
    | mk verdict t' =>
      rw [hr] at h
      simp only at h
      simp [is_likely_tracker, h.2, h.1]

/-- Witness for C6: with a cache already holding the URL, the call returns
the cached verdict and the unchanged state, and a repeated call is stable. -/
theorem classify_cache_no_side_effects_witness :
    is_likely_tracker (fun _ _ _ => true) cachedTrackerExample
        "http://cached.example/x" "cached.example" none
      = (false, cachedTrackerExample) ∧
    is_likely_tracker (fun _ _ _ => true)
        (is_likely_tracker (fun _ _ _ => true) cachedTrackerExample
          "http://cached.example/x" "cached.example" none).2
        "http://cached.example/x" "cached.example" none
      = is_likely_tracker (fun _ _ _ => true) cachedTrackerExample
          "http://cached.example/x" "cached.example" none := by
  have h := classify_cache_no_side_effects (fun _ _ _ => true) cachedTrackerExample
    "http://cached.example/x" "cached.example" none (by decide)
  exact ⟨h.1 false (by decide), h.2⟩

/-! ## SharedState (src/shared_state.rs) -/

/-- Embeds `struct DomainStat` (the `bandwidth_saved` cell starts at 0 and is
never touched by `record_request`). -/
structure DomainStat where
  requests : Nat
  blocked : Nat
  last_seen : String
  bandwidth_saved : Nat

/-- Embeds `struct SharedState`: all the `Arc<Mutex<...>>` cells as plain
fields, with the per-domain `HashMap<String, DomainStat>` as an association
list. -/
structure SharedState where
  proxy_enabled : Bool
  log_enabled : Bool
  logs : List String
  blocker : TrackerBlocker
  stats : List (String × DomainStat)
  allowed_count : Nat
  blocked_count : Nat
  ai_tracker : AITracker
  ai_suggested_trackers : List String
  bandwidth_saved : Nat

/-- `HashMap::get` on the per-domain statistics. -/
def statLookup (stats : List (String × DomainStat)) (domain : String) :
    Option DomainStat :=
  (stats.find? (fun p => p.1 == domain)).map (·.2)

/-- The `stats.entry(domain).or_insert_with(...)` + update step of
`record_request`: bump `requests`, bump `blocked` when blocked, refresh
`last_seen` with the wall clock `now`. -/
def statUpdate (stats : List (String × DomainStat)) (domain : String)
    (blocked : Bool) (now : String) : List (String × DomainStat) :=
  let entry := (statLookup stats domain).getD
    { requests := 0, blocked := 0, last_seen := now, bandwidth_saved := 0 }
  let entry' : DomainStat :=
    { requests := entry.requests + 1
      blocked := entry.blocked + (if blocked then 1 else 0)
      last_seen := now
      bandwidth_saved := entry.bandwidth_saved }
  (stats.filter (fun p => !(p.1 == domain))) ++ [(domain, entry')]

/-- Embeds `SharedState::record_request`: update the domain's stat entry and
bump the matching global counter. -/
def record_request (s : SharedState) (domain : String) (blocked : Bool)
    (now : String) : SharedState :=
  let s' := { s with stats := statUpdate s.stats domain blocked now }
  if blocked then { s' with blocked_count := s.blocked_count + 1 }
  else { s' with allowed_count := s.allowed_count + 1 }

/-- `SharedState::append_log` lifted to the whole state. -/
def appendLogS (s : SharedState) (now entry : String) : SharedState :=
  { s with logs := append_log s.logs now entry }

/-- Embeds `SharedState::add_tracker`: delegate to
`TrackerBlocker::add_tracker` and append a log line on success, or wrap the
error message. -/
def ss_add_tracker (s : SharedState) (domain : String) (now : String)
    (saveResult : Option String) : Option String × SharedState :=
  match tb_add_tracker saveResult s.blocker domain with
  | (none, b') => (none, appendLogS { s with blocker := b' } now ("➕ Added tracker: " ++ domain))
  | (some e, b') => (some ("Failed to add tracker: " ++ e), { s with blocker := b' })

/-- Embeds `SharedState::add_ai_suggested_tracker`: push the domain onto the
suggestion queue (and log) unless it is already present. -/
def add_ai_suggested_tracker (s : SharedState) (domain : String) (now : String) :
    SharedState :=
  if s.ai_suggested_trackers.contains domain then s
  else appendLogS { s with ai_suggested_trackers := s.ai_suggested_trackers ++ [domain] }
    now ("🤖 Added domain to AI suggestions: " ++ domain)

/-- Embeds `SharedState::approve_ai_suggestion`: add to the blocklist first
(the `?` operator returns the error immediately), then drop the domain from
the suggestion queue, then report a false negative to the classifier, then
log.  The first component is `some e` exactly when the operation returned
`Err(e)`. -/
def approve_ai_suggestion (s : SharedState) (domain : String) (now : String)
    (saveResult : Option String) : Option String × SharedState :=
  match ss_add_tracker s domain now saveResult with
  | (some e, s1) => (some e, s1)
  | (none, s1) =>
    let s2 := { s1 with
      ai_suggested_trackers := s1.ai_suggested_trackers.filter (fun d => !(d == domain)) }
    let s3 := { s2 with ai_tracker := report_false_negative s2.ai_tracker domain }
    (none, appendLogS s3 now ("✅ Approved AI-suggested tracker: " ++ domain))

/-- A concrete shared state with one pending suggestion, for the C9 witness. -/
def exApproveState : SharedState :=
  { proxy_enabled := true
    log_enabled := true
    logs := []
    blocker := { trackers := [], tracking_params := trackingParamVocabulary }
    stats := []
    allowed_count := 0
    blocked_count := 0
    ai_tracker := AITracker.new
    ai_suggested_trackers := ["bad.example"]
    bandwidth_saved := 0 }

/-- C9: when the blocklist addition inside `approve_ai_suggestion` fails, the
operation returns that same error, the suggestion queue is untouched (so the
domain stays queued), and the classifier — its feedback lists, cache and
counters — is completely unchanged. -/
theorem approve_ai_suggestion_error_frame (s : SharedState) (domain now e : String)
    (saveResult : Option String)
    (herr : (ss_add_tracker s domain now saveResult).1 = some e) :
    (approve_ai_suggestion s domain now saveResult).1 = some e ∧
    (approve_ai_suggestion s domain now saveResult).2.ai_suggested_trackers
      = s.ai_suggested_trackers ∧
    (approve_ai_suggestion s domain now saveResult).2.ai_tracker = s.ai_tracker := by
  have hframe : (ss_add_tracker s domain now saveResult).2.ai_suggested_trackers
      = s.ai_suggested_trackers ∧
      (ss_add_tracker s domain now saveResult).2.ai_tracker = s.ai_tracker := by
    unfold ss_add_tracker
    cases tb_add_tracker saveResult s.blocker domain with
    | mk o b' => cases o <;> simp [appendLogS]
  unfold approve_ai_suggestion
  cases hadd : ss_add_tracker s domain now saveResult with
  | mk o s1 =>
    rw [hadd] at herr hframe
    simp only at herr
    cases o with
    | none => simp at herr
    | some e' =>
      have : e' = e := by simpa using herr
      subst this
      exact ⟨rfl, hframe.1, hframe.2⟩

/-- Witness for C9: a concrete failed save (`saveResult = some "disk full"`)
on a fresh state leaves the queue and classifier untouched and surfaces the
wrapped error. -/
theorem approve_ai_suggestion_error_frame_witness :
    (approve_ai_suggestion exApproveState "bad.example" "12:00:00"
        (some "disk full")).1 = some "Failed to add tracker: disk full" ∧
    (approve_ai_suggestion exApproveState "bad.example" "12:00:00"
        (some "disk full")).2.ai_suggested_trackers = ["bad.example"] ∧
    (approve_ai_suggestion exApproveState "bad.example" "12:00:00"
        (some "disk full")).2.ai_tracker = exApproveState.ai_tracker := by
  have h := approve_ai_suggestion_error_frame exApproveState "bad.example" "12:00:00"
    "Failed to add tracker: disk full" (some "disk full") (by decide)
  exact ⟨h.1, by rw [h.2.1]; rfl, h.2.2⟩

/-! ## ProxyEngine request handler (src/run_proxy.rs, `proxy`) -/

/-- The request data the handler reads from `hyper::Request`: the method,
the URI's host/port/path/authority components, and the URI rendered as a
string (passed to nothing in the handler, but the classifier claims speak
about it). -/
structure ProxyRequest where
  method : String
  uriHost : Option String
  uriPort : Option Nat
  uriPath : String
  uriAuthority : Option String
  uriFull : String

/-- The externally visible I/O steps the handler takes, in order: the
blocklist consultation, spawning a CONNECT tunnel, dialing the upstream
`host:port`, and sending the client's request upstream. -/
inductive ProxyAction where
  | checkBlocked (host : String)
  | tunnelTo (addr : String)
  | connectUpstream (addr : String)
  | sendUpstream
deriving DecidableEq

/-- The environment's decision about the upstream dial/handshake/send in the
plain-HTTP branch. -/
inductive UpstreamOutcome where
  | connectFail
  | handshakeFail
  | sendFail
  | ok (status : Nat) (body : String)

/-- A hyper response, reduced to status code and body text. -/
structure ProxyResponse where
  status : Nat
  body : String

/-- Embeds the `proxy` service function of src/run_proxy.rs, returning the
response, the updated shared state, and the ordered list of I/O actions
taken.  Mirrors the source order: host extraction with the
`unwrap_or("unknown-host")` fallback, optional request logging, the
proxy-disabled gate (CONNECT passthrough / 503), the blocklist check, the
403 block response, the CONNECT tunnel, and plain-HTTP forwarding with its
502 failure responses. -/
def proxy (req : ProxyRequest) (s : SharedState) (now : String)
    (upstream : UpstreamOutcome) : ProxyResponse × SharedState × List ProxyAction :=
  let host := req.uriHost.getD "unknown-host"
  let isConnect := req.method == "CONNECT"
  let s := if s.log_enabled then
      appendLogS s now (req.method ++ " " ++ host ++ " " ++ req.uriPath)
    else s
  if !s.proxy_enabled then
    if isConnect then
      match req.uriAuthority with
      | some authority =>
        ({ status := 200, body := "" }, s, [ProxyAction.tunnelTo authority])
      | none =>
        ({ status := 400, body := "CONNECT must be to a socket address" }, s, [])
    else
      let s := record_request s host false now
      ({ status := 503, body := "🔌 Proxy is currently disabled — request blocked" }, s, [])
  else
    let isBlockedHost := is_blocked s.blocker host
    if isBlockedHost then
      let s := record_request s host true now
      let s := appendLogS s now ("🚫 Blocked request to tracker: " ++ host)
      ({ status := 403, body := "🚫 Blocked request to tracker: " ++ host }, s,
        [ProxyAction.checkBlocked host])
    else if isConnect then
      match req.uriAuthority with
      | some authority =>
        let s := record_request s host false now
        ({ status := 200, body := "" }, s,
          [ProxyAction.checkBlocked host, ProxyAction.tunnelTo authority])
      | none =>
        ({ status := 400, body := "CONNECT must be to a socket address" }, s,
          [ProxyAction.checkBlocked host])
    else
      let s := record_request s host false now
      let port := req.uriPort.getD 80
      let addr := host ++ ":" ++ toString port
      match upstream with
      | .connectFail =>
        let s := appendLogS s now ("❌ Failed to connect to " ++ addr)
        ({ status := 502, body := "Failed to connect to target host" }, s,
          [ProxyAction.checkBlocked host, ProxyAction.connectUpstream addr])
      | .handshakeFail =>
        let s := appendLogS s now ("❌ Handshake failed with " ++ host)
        ({ status := 502, body := "Handshake failed" }, s,
          [ProxyAction.checkBlocked host, ProxyAction.connectUpstream addr])
      | .sendFail =>
        let s := appendLogS s now ("❌ Request failed with " ++ host)
        ({ status := 502, body := "Bad Gateway" }, s,
          [ProxyAction.checkBlocked host, ProxyAction.connectUpstream addr,
           ProxyAction.sendUpstream])
      | .ok st body =>
        ({ status := st, body := body }, s,
          [ProxyAction.checkBlocked host, ProxyAction.connectUpstream addr,
           ProxyAction.sendUpstream])

@[simp] theorem appendLogS_proxy_enabled (s : SharedState) (n e : String) :
    (appendLogS s n e).proxy_enabled = s.proxy_enabled := rfl

@[simp] theorem appendLogS_log_enabled (s : SharedState) (n e : String) :
    (appendLogS s n e).log_enabled = s.log_enabled := rfl

@[simp] theorem appendLogS_blocker (s : SharedState) (n e : String) :
    (appendLogS s n e).blocker = s.blocker := rfl

@[simp] theorem appendLogS_stats (s : SharedState) (n e : String) :
    (appendLogS s n e).stats = s.stats := rfl

@[simp] theorem appendLogS_allowed_count (s : SharedState) (n e : String) :
    (appendLogS s n e).allowed_count = s.allowed_count := rfl

@[simp] theorem appendLogS_blocked_count (s : SharedState) (n e : String) :
    (appendLogS s n e).blocked_count = s.blocked_count := rfl

@[simp] theorem appendLogS_ai_tracker (s : SharedState) (n e : String) :
    (appendLogS s n e).ai_tracker = s.ai_tracker := rfl

@[simp] theorem appendLogS_ai_suggested_trackers (s : SharedState) (n e : String) :
    (appendLogS s n e).ai_suggested_trackers = s.ai_suggested_trackers := rfl

@[simp] theorem record_request_proxy_enabled (s : SharedState) (d : String)
    (b : Bool) (n : String) :
    (record_request s d b n).proxy_enabled = s.proxy_enabled := by
  unfold record_request; split <;> rfl

@[simp] theorem record_request_blocker (s : SharedState) (d : String)
    (b : Bool) (n : String) : (record_request s d b n).blocker = s.blocker := by
  unfold record_request; split <;> rfl

@[simp] theorem record_request_stats (s : SharedState) (d : String)
    (b : Bool) (n : String) :
    (record_request s d b n).stats = statUpdate s.stats d b n := by
  unfold record_request; split <;> rfl

@[simp] theorem record_request_ai_tracker (s : SharedState) (d : String)
    (b : Bool) (n : String) :
    (record_request s d b n).ai_tracker = s.ai_tracker := by
  unfold record_request; split <;> rfl

@[simp] theorem record_request_ai_suggested_trackers (s : SharedState)
    (d : String) (b : Bool) (n : String) :
    (record_request s d b n).ai_suggested_trackers = s.ai_suggested_trackers := by
  unfold record_request; split <;> rfl

@[simp] theorem record_request_blocked_count_true (s : SharedState) (d : String)
    (n : String) : (record_request s d true n).blocked_count = s.blocked_count + 1 := rfl

@[simp] theorem record_request_allowed_count_true (s : SharedState) (d : String)
    (n : String) : (record_request s d true n).allowed_count = s.allowed_count := rfl

@[simp] theorem record_request_blocked_count_false (s : SharedState) (d : String)
    (n : String) : (record_request s d false n).blocked_count = s.blocked_count := rfl

@[simp] theorem record_request_allowed_count_false (s : SharedState) (d : String)
    (n : String) : (record_request s d false n).allowed_count = s.allowed_count + 1 := rfl

theorem find?_key_filter_none {β : Type} (l : List (String × β)) (k : String) :
    (l.filter (fun p => !(p.1 == k))).find? (fun p => p.1 == k) = none := by
  induction l with
  | nil => rfl
  | cons p rest ih =>
    by_cases hp : p.1 == k <;> simp [List.filter_cons, hp, List.find?_cons, ih]

/-- After `statUpdate`, the domain's entry shows one more request, one more
block when blocked, and the refreshed `last_seen`. -/
theorem statLookup_statUpdate (stats : List (String × DomainStat)) (d : String)
    (b : Bool) (now : String) :
    statLookup (statUpdate stats d b now) d =
      some { requests := ((statLookup stats d).getD
                { requests := 0, blocked := 0, last_seen := now,
                  bandwidth_saved := 0 }).requests + 1
             blocked := ((statLookup stats d).getD
                { requests := 0, blocked := 0, last_seen := now,
                  bandwidth_saved := 0 }).blocked + (if b then 1 else 0)
             last_seen := now
             bandwidth_saved := ((statLookup stats d).getD
                { requests := 0, blocked := 0, last_seen := now,
                  bandwidth_saved := 0 }).bandwidth_saved } := by
  conv_lhs => unfold statUpdate statLookup
  rw [find?_append_none _ _ _ (find?_key_filter_none stats d)]
  simp [statLookup, List.find?]

/-- C2: with the proxy enabled and a blocklisted host, the handler returns a
403 with a descriptive body naming the host, increments the blocked counter
(and not the allowed one), and its action trace contains only the blocklist
consultation — no upstream dial, no forwarding, no tunnel ever happens for a
blocked request, so the block decision precedes any byte transfer. -/
theorem proxy_blocked_request (req : ProxyRequest) (s : SharedState)
    (now : String) (upstream : UpstreamOutcome)
    (hen : s.proxy_enabled = true)
    (hblk : is_blocked s.blocker (req.uriHost.getD "unknown-host") = true) :
    (proxy req s now upstream).1.status = 403 ∧
    (proxy req s now upstream).1.body =
      "🚫 Blocked request to tracker: " ++ req.uriHost.getD "unknown-host" ∧
    (proxy req s now upstream).2.1.blocked_count = s.blocked_count + 1 ∧
    (proxy req s now upstream).2.1.allowed_count = s.allowed_count ∧
    ∀ a ∈ (proxy req s now upstream).2.2,
      a = ProxyAction.checkBlocked (req.uriHost.getD "unknown-host") := by
  by_cases hlog : s.log_enabled <;>
    simp [proxy, hlog, hen, hblk]

/-- A concrete enabled state whose blocklist holds `ads.example.com`, and a
GET request to that host, for the C2 witness. -/
def exBlockedState : SharedState :=
  { exApproveState with
    blocker := { trackers := ["ads.example.com"],
                 tracking_params := trackingParamVocabulary }
    ai_suggested_trackers := [] }

def exBlockedReq : ProxyRequest :=
  { method := "GET"
    uriHost := some "ads.example.com"
    uriPort := none
    uriPath := "/banner.js"
    uriAuthority := none
    uriFull := "http://ads.example.com/banner.js" }

/-- Witness for C2: the concrete blocked request yields a 403, a blocked
count of 1, and a trace without network actions. -/
theorem proxy_blocked_request_witness :
    (proxy exBlockedReq exBlockedState "12:00:00" UpstreamOutcome.connectFail).1.status
      = 403 ∧
    (proxy exBlockedReq exBlockedState "12:00:00" UpstreamOutcome.connectFail).2.1.blocked_count
      = exBlockedState.blocked_count + 1 ∧
    ∀ a ∈ (proxy exBlockedReq exBlockedState "12:00:00" UpstreamOutcome.connectFail).2.2,
      a = ProxyAction.checkBlocked "ads.example.com" := by
  have h := proxy_blocked_request exBlockedReq exBlockedState "12:00:00"
    UpstreamOutcome.connectFail (by decide) (by decide)
  exact ⟨h.1, h.2.2.1, h.2.2.2.2⟩

/-- C4: with the proxy toggle disabled, a non-CONNECT request receives a 503
Service Unavailable and is recorded as allowed — the allowed counter rises by
exactly one while the blocked counter stays put. -/
theorem proxy_disabled_non_connect (req : ProxyRequest) (s : SharedState)
    (now : String) (upstream : UpstreamOutcome)
    (hdis : s.proxy_enabled = false)
    (hnc : req.method ≠ "CONNECT") :
    (proxy req s now upstream).1.status = 503 ∧
    (proxy req s now upstream).2.1.allowed_count = s.allowed_count + 1 ∧
    (proxy req s now upstream).2.1.blocked_count = s.blocked_count := by
  by_cases hlog : s.log_enabled <;>
    simp [proxy, hlog, hdis, hnc]

/-- Witness for C4: a disabled proxy turns a concrete GET into a 503 recorded
as allowed. -/
theorem proxy_disabled_non_connect_witness :
    (proxy exBlockedReq { exBlockedState with proxy_enabled := false } "12:00:00"
        UpstreamOutcome.connectFail).1.status = 503 ∧
    (proxy exBlockedReq { exBlockedState with proxy_enabled := false } "12:00:00"
        UpstreamOutcome.connectFail).2.1.allowed_count
      = ({ exBlockedState with proxy_enabled := false } : SharedState).allowed_count + 1 := by
  have h := proxy_disabled_non_connect exBlockedReq
    { exBlockedState with proxy_enabled := false } "12:00:00"
    UpstreamOutcome.connectFail (by decide) (by decide)
  exact ⟨h.1, h.2.1⟩

/-- C10: when the request URI has no host, the handler substitutes the
literal `"unknown-host"`: that placeholder is what the blocklist check sees,
what the per-domain statistics and the allowed counter record, and — with the
default port 80 — what the upstream dial targets in the plain-HTTP branch. -/
theorem proxy_unknown_host_placeholder (req : ProxyRequest) (s : SharedState)
    (now : String) (upstream : UpstreamOutcome)
    (hhost : req.uriHost = none)
    (hport : req.uriPort = none)
    (hen : s.proxy_enabled = true)
    (hnc : req.method ≠ "CONNECT")
    (hnb : is_blocked s.blocker "unknown-host" = false) :
    ProxyAction.checkBlocked "unknown-host" ∈ (proxy req s now upstream).2.2 ∧
    ProxyAction.connectUpstream "unknown-host:80" ∈ (proxy req s now upstream).2.2 ∧
    (proxy req s now upstream).2.1.allowed_count = s.allowed_count + 1 ∧
    statLookup (proxy req s now upstream).2.1.stats "unknown-host" =
      some { requests := ((statLookup s.stats "unknown-host").getD
                { requests := 0, blocked := 0, last_seen := now,
                  bandwidth_saved := 0 }).requests + 1
             blocked := ((statLookup s.stats "unknown-host").getD
                { requests := 0, blocked := 0, last_seen := now,
                  bandwidth_saved := 0 }).blocked
             last_seen := now
             bandwidth_saved := ((statLookup s.stats "unknown-host").getD
                { requests := 0, blocked := 0, last_seen := now,
                  bandwidth_saved := 0 }).bandwidth_saved } := by
  have hstat := statLookup_statUpdate s.stats "unknown-host" false now
  by_cases hlog : s.log_enabled <;>
    cases upstream <;>
    simp [proxy, hlog, hen, hnc, hhost, hport, hnb] <;>
    first
      | exact ⟨by decide, hstat⟩
      | simpa using hstat

/-- A host-less request and a plain enabled state, for the C10 witness. -/
def exNoHostReq : ProxyRequest :=
  { method := "GET"
    uriHost := none
    uriPort := none
    uriPath := "/x"
    uriAuthority := none
    uriFull := "/x" }

def exNoHostState : SharedState :=
  { exApproveState with ai_suggested_trackers := [] }

/-- Witness for C10: a concrete host-less GET request is checked, recorded
and dialed as `unknown-host`. -/
theorem proxy_unknown_host_placeholder_witness :
    ProxyAction.connectUpstream "unknown-host:80" ∈
      (proxy exNoHostReq exNoHostState "12:00:00" UpstreamOutcome.connectFail).2.2 ∧
    (proxy exNoHostReq exNoHostState "12:00:00" UpstreamOutcome.connectFail).2.1.allowed_count
      = exNoHostState.allowed_count + 1 := by
  have h := proxy_unknown_host_placeholder exNoHostReq exNoHostState "12:00:00"
    UpstreamOutcome.connectFail rfl rfl (by decide) (by decide) (by decide)
  exact ⟨h.2.1, h.2.2.1⟩

theorem proxy_preserves_ai (req : ProxyRequest) (s : SharedState)
    (now : String) (upstream : UpstreamOutcome) :
    (proxy req s now upstream).2.1.ai_suggested_trackers = s.ai_suggested_trackers ∧
    (proxy req s now upstream).2.1.ai_tracker = s.ai_tracker := by
  by_cases hlog : s.log_enabled <;>
    by_cases hen : s.proxy_enabled <;>
    cases hc : req.method == "CONNECT" <;>
    cases ha : req.uriAuthority <;>
    cases hb : is_blocked s.blocker (req.uriHost.getD "unknown-host") <;>
    cases upstream <;>
    simp [proxy, hlog, hen, hc, ha, hb]

/-- A state whose classifier is enabled and already knows `evil.example` as a
tracker (so every scoring function classifies it positively), whose blocklist
does not cover it, and an ordinary GET request to it — the exact situation of
the heuristic step the spec describes. -/
def exC3State : SharedState :=
  { exApproveState with
    blocker := { trackers := ["tracker.net"],
                 tracking_params := trackingParamVocabulary }
    ai_tracker := { AITracker.new with known_trackers := ["evil.example"] }
    ai_suggested_trackers := [] }

def exC3Req : ProxyRequest :=
  { method := "GET"
    uriHost := some "evil.example"
    uriPort := none
    uriPath := "/pixel/track"
    uriAuthority := none
    uriFull := "http://evil.example/pixel/track" }

/-- C3: the request handler never consults the heuristic classifier and never
enqueues anything into the AI suggestion queue — for every request the
handler leaves both the suggestion queue and the whole classifier state
unchanged.  In particular, for a concrete enabled-classifier state where
classifying the request's URL/host yields a positive tracker verdict under
every scoring function, the request is simply forwarded (status 200, upstream
send in the trace) and the suggestion queue stays empty, contradicting the
documented enqueue-on-positive-verdict step. -/
theorem classifier_dead_in_request_path :
    (∀ (req : ProxyRequest) (s : SharedState) (now : String)
        (upstream : UpstreamOutcome),
      (proxy req s now upstream).2.1.ai_suggested_trackers = s.ai_suggested_trackers ∧
      (proxy req s now upstream).2.1.ai_tracker = s.ai_tracker) ∧
    exC3State.ai_tracker.enabled = true ∧
    (∀ score : String → String → Option String → Bool,
      (is_likely_tracker score exC3State.ai_tracker
        exC3Req.uriFull "evil.example" none).1 = true) ∧
    is_blocked exC3State.blocker "evil.example" = false ∧
    (proxy exC3Req exC3State "12:00:00" (UpstreamOutcome.ok 200 "origin ok")).1.status
      = 200 ∧
    ProxyAction.sendUpstream ∈
      (proxy exC3Req exC3State "12:00:00" (UpstreamOutcome.ok 200 "origin ok")).2.2 ∧
    (proxy exC3Req exC3State "12:00:00" (UpstreamOutcome.ok 200 "origin ok")).2.1.ai_suggested_trackers
      = [] := by
  refine ⟨proxy_preserves_ai, by decide, ?_, by decide, by decide, by decide, by decide⟩
  intro score
  simp [is_likely_tracker, exC3State, AITracker.new, cacheLookup, List.find?]

/-! ## URL model for `TrackerBlocker::clean_url` (src/tracker_blocker.rs)

`clean_url` delegates to the `url` crate: `Url::parse`, `query_pairs()`
(application/x-www-form-urlencoded decoding), `set_query` (percent-encoding
per the special-scheme query set) and `to_string`.  The crate is modelled
here for a restricted ASCII `http://` grammar: inputs outside that subset
(other schemes, fragments, userinfo/ports, non-ASCII or whitespace
characters, characters the crate's parser would itself percent-encode) are
treated as unparseable.  On the accepted subset the model follows the
crate's documented behaviour exactly: `query_pairs` splits on `&`, then on
the first `=`, skips empty sequences, and decodes `+` to space and `%XY`
escapes; `set_query` percent-encodes C0 controls, 0x7F, space, `"`, `#`,
`'`, `<` and `>` with uppercase hex digits and leaves everything else
(including `&`, `=`, `+`) as-is. -/

/-- Host characters accepted by the model: lowercase ASCII letters, digits,
`-` and `.` (anything the crate would normalize or reject is out of the
modelled subset). -/
def hostCharOk (c : Char) : Bool :=
  let n := c.toNat
  (0x61 ≤ n && n ≤ 0x7a) || (0x30 ≤ n && n ≤ 0x39) || n == 0x2d || n == 0x2e

/-- Path characters accepted by the model: printable ASCII that the crate's
path serializer passes through verbatim (excluding the terminators `?`, `#`
and the path percent-encode set members). -/
def pathCharOk (c : Char) : Bool :=
  let n := c.toNat
  0x21 ≤ n && n ≤ 0x7e && n != 0x22 && n != 0x23 && n != 0x3c && n != 0x3e &&
    n != 0x3f && n != 0x60 && n != 0x7b && n != 0x7d

/-- Query characters accepted by the model: printable ASCII that the crate's
special-scheme query serializer passes through verbatim. -/
def queryCharOk (c : Char) : Bool :=
  let n := c.toNat
  0x21 ≤ n && n ≤ 0x7e && n != 0x22 && n != 0x23 && n != 0x27 && n != 0x3c &&
    n != 0x3e

/-- A parsed `http://` URL: host, path (always starting with `/`) and
optional raw query string. -/
structure UrlM where
  host : List Char
  path : List Char
  query : Option (List Char)
deriving DecidableEq

/-- The host-terminating delimiters of the parser. -/
def hostPred (c : Char) : Bool := !(c == '/' || c == '?' || c == '#')

/-- The path-terminating delimiters of the parser. -/
def pathPred (c : Char) : Bool := !(c == '?' || c == '#')

/-- What follows the path: nothing, or `?` and the raw query (a fragment is
outside the modelled subset). -/
def parseRest3 (host path rest3 : List Char) : Option UrlM :=
  match rest3 with
  | [] => some { host := host, path := path, query := none }
  | c :: q =>
    if c = '?' then
      if q.all queryCharOk then some { host := host, path := path, query := some q }
      else none
    else none

/-- What follows the host: nothing or a bare query (path normalized to `/`),
or a path and then `parseRest3`. -/
def parseRest2 (host rest2 : List Char) : Option UrlM :=
  match rest2 with
  | [] => some { host := host, path := ['/'], query := none }
  | c :: tl =>
    if c = '?' then
      if tl.all queryCharOk then some { host := host, path := ['/'], query := some tl }
      else none
    else if c = '/' then
      if (rest2.takeWhile pathPred).all pathCharOk then
        parseRest3 host (rest2.takeWhile pathPred)
          (rest2.drop (rest2.takeWhile pathPred).length)
      else none
    else none

/-- The host and everything after it. -/
def parseHostRest (rest : List Char) : Option UrlM :=
  if !(rest.takeWhile hostPred).isEmpty && (rest.takeWhile hostPred).all hostCharOk then
    parseRest2 (rest.takeWhile hostPred) (rest.drop (rest.takeWhile hostPred).length)
  else none

/-- Models `Url::parse` on the restricted ASCII `http://` grammar. -/
def parseUrl (s : String) : Option UrlM :=
  if s.data.take 7 = "http://".data then parseHostRest (s.data.drop 7) else none

/-- Models `Url::to_string` on the modelled subset. -/
def toStringUrl (u : UrlM) : String :=
  ⟨"http://".data ++ u.host ++ u.path ++
    (match u.query with
     | none => []
     | some q => '?' :: q)⟩

def isHexDigitC (c : Char) : Bool :=
  let n := c.toNat
  (0x30 ≤ n && n ≤ 0x39) || (0x41 ≤ n && n ≤ 0x46) || (0x61 ≤ n && n ≤ 0x66)

def hexVal (c : Char) : Nat :=
  let n := c.toNat
  if n ≤ 0x39 then n - 0x30 else if n ≤ 0x46 then n - 0x37 else n - 0x57

/-- Percent-plus decoding of one form-urlencoded component (`+` → space,
valid `%XY` → the byte, invalid escapes kept literally), as
`form_urlencoded::parse` does on ASCII input. -/
def formDecode : List Char → List Char
  | [] => []
  | '+' :: rest => ' ' :: formDecode rest
  | '%' :: a :: b :: rest2 =>
    if isHexDigitC a && isHexDigitC b then
      Char.ofNat (16 * hexVal a + hexVal b) :: formDecode rest2
    else '%' :: formDecode (a :: b :: rest2)
  | c :: rest => c :: formDecode rest

/-- Split on `&`, written with an accumulator-free auxiliary: first piece and
remaining pieces. -/
def splitAmpA : List Char → List Char × List (List Char)
  | [] => ([], [])
  | c :: rest =>
    let p := splitAmpA rest
    if c = '&' then ([], p.1 :: p.2) else (c :: p.1, p.2)

def splitAmp (l : List Char) : List (List Char) :=
  (splitAmpA l).1 :: (splitAmpA l).2

/-- Split one `&`-free piece at its first `=` (no `=` means empty value). -/
def splitEq : List Char → List Char × List Char
  | [] => ([], [])
  | c :: rest =>
    if c = '=' then ([], rest)
    else
      let p := splitEq rest
      (c :: p.1, p.2)

/-- Models `Url::query_pairs`: split the raw query on `&`, skip empty
sequences, split each piece at the first `=`, percent-plus-decode both
sides. -/
def queryPairs (q : List Char) : List (List Char × List Char) :=
  (splitAmp q).filterMap (fun piece =>
    if piece = [] then none
    else
      let p := splitEq piece
      some (formDecode p.1, formDecode p.2))

def hexDigitUpper (n : Nat) : Char :=
  if n < 10 then Char.ofNat (0x30 + n) else Char.ofNat (0x37 + n)

/-- The crate's special-scheme query percent-encode set: C0 controls, 0x7F,
space, `"`, `#`, `'`, `<`, `>`. -/
def queryEncodeChar (c : Char) : List Char :=
  let n := c.toNat
  if n < 0x20 || n == 0x7f || n == 0x20 || n == 0x22 || n == 0x23 || n == 0x27 ||
      n == 0x3c || n == 0x3e then
    ['%', hexDigitUpper (n / 16), hexDigitUpper (n % 16)]
  else [c]

/-- Models the percent-encoding `Url::set_query` applies to the string it is
given. -/
def queryEncode (l : List Char) : List Char :=
  (l.map queryEncodeChar).join

/-- Rust's `Vec::join("&")`. -/
def joinAmp : List (List Char) → List Char
  | [] => []
  | p :: rest =>
    match rest with
    | [] => p
    | _ :: _ => p ++ '&' :: joinAmp rest

/-- Embeds `TrackerBlocker::clean_url`: parse; keep the decoded query pairs
whose key is not a tracking parameter; clear the query; if any pairs remain,
re-set the query to the `k=v` pairs joined with `&` (the crate then
percent-encodes that string); serialize.  On parse failure return the input
unchanged. -/
def clean_url (b : TrackerBlocker) (url_str : String) : String :=
  match parseUrl url_str with
  | none => url_str
  | some u =>
    let pairs := queryPairs (u.query.getD [])
    let kept := pairs.filter (fun kv => !(is_tracking_parameter b ⟨kv.1⟩))
    if kept.isEmpty then toStringUrl { u with query := none }
    else
      toStringUrl { u with
        query := some (queryEncode (joinAmp (kept.map (fun kv => kv.1 ++ '=' :: kv.2)))) }

/-- A blocker with an empty blocklist and the predefined tracking-parameter
vocabulary of `TrackerBlocker::new`, used by the `clean_url` theorems. -/
def vocabBlocker : TrackerBlocker :=
  { trackers := [], tracking_params := trackingParamVocabulary }

theorem formDecode_id (l : List Char) (h : ∀ c ∈ l, c ≠ '%' ∧ c ≠ '+') :
    formDecode l = l := by
  induction l using formDecode.induct with
  | case1 => rfl
  | case2 rest ih =>
    exact absurd rfl (h '+' (List.mem_cons_self _ _)).2
  | case3 a b rest2 hhex ih =>
    exact absurd rfl (h '%' (List.mem_cons_self _ _)).1
  | case4 a b rest2 hhex ih =>
    exact absurd rfl (h '%' (List.mem_cons_self _ _)).1
  | case5 c rest hne1 hne2 ih =>
    rw [formDecode]
    · rw [ih (fun x hx => h x (List.mem_cons_of_mem c hx))]
    · exact hne1
    · exact hne2

theorem splitAmpA_pieces (q : List Char) :
    ('&' ∉ (splitAmpA q).1 ∧ ∀ c ∈ (splitAmpA q).1, c ∈ q) ∧
    (∀ p ∈ (splitAmpA q).2, '&' ∉ p ∧ ∀ c ∈ p, c ∈ q) := by
  induction q with
  | nil => exact ⟨⟨by simp [splitAmpA], by simp [splitAmpA]⟩, by simp [splitAmpA]⟩
  | cons c rest ih =>
    by_cases hc : c = '&'
    · subst hc
      refine ⟨⟨by simp [splitAmpA], by simp [splitAmpA]⟩, ?_⟩
      intro p hp
      simp only [splitAmpA, if_pos rfl] at hp
      rcases List.mem_cons.mp hp with rfl | hp'
      · exact ⟨ih.1.1, fun x hx => List.mem_cons_of_mem _ (ih.1.2 x hx)⟩
      · exact ⟨(ih.2 p hp').1, fun x hx => List.mem_cons_of_mem _ ((ih.2 p hp').2 x hx)⟩
    · refine ⟨⟨?_, ?_⟩, ?_⟩
      · simp only [splitAmpA, if_neg hc]
        intro hmem
        rcases List.mem_cons.mp hmem with h1 | h1
        · exact hc h1.symm
        · exact ih.1.1 h1
      · simp only [splitAmpA, if_neg hc]
        intro x hx
        rcases List.mem_cons.mp hx with rfl | h1
        · exact List.mem_cons_self x rest
        · exact List.mem_cons_of_mem _ (ih.1.2 x h1)
      · simp only [splitAmpA, if_neg hc]
        intro p hp
        exact ⟨(ih.2 p hp).1, fun x hx => List.mem_cons_of_mem _ ((ih.2 p hp).2 x hx)⟩

theorem splitAmp_pieces (q : List Char) :
    ∀ p ∈ splitAmp q, '&' ∉ p ∧ ∀ c ∈ p, c ∈ q := by
  intro p hp
  rcases List.mem_cons.mp hp with rfl | hp'
  · exact (splitAmpA_pieces q).1
  · exact (splitAmpA_pieces q).2 p hp'

theorem splitAmpA_noamp (p : List Char) (hp : '&' ∉ p) : splitAmpA p = (p, []) := by
  induction p with
  | nil => rfl
  | cons c rest ih =>
    have hc : ¬(c = '&') := fun h => hp (h ▸ List.mem_cons_self c rest)
    have hrest : '&' ∉ rest := fun h => hp (List.mem_cons_of_mem c h)
    simp [splitAmpA, hc, ih hrest]

theorem splitAmpA_append (p rest : List Char) (hp : '&' ∉ p) :
    splitAmpA (p ++ '&' :: rest) = (p, (splitAmpA rest).1 :: (splitAmpA rest).2) := by
  induction p with
  | nil => simp [splitAmpA]
  | cons c p' ih =>
    have hc : ¬(c = '&') := fun h => hp (h ▸ List.mem_cons_self c p')
    have hp' : '&' ∉ p' := fun h => hp (List.mem_cons_of_mem c h)
    simp [splitAmpA, hc, ih hp']

theorem splitAmp_joinAmp (ps : List (List Char)) (h : ∀ p ∈ ps, '&' ∉ p)
    (hne : ps ≠ []) : splitAmp (joinAmp ps) = ps := by
  induction ps with
  | nil => exact absurd rfl hne
  | cons p rest ih =>
    have hpp : '&' ∉ p := h p (List.mem_cons_self p rest)
    cases rest with
    | nil =>
      rw [show joinAmp [p] = p from rfl]
      simp [splitAmp, splitAmpA_noamp p hpp]
    | cons q rest' =>
      have hrest : ∀ x ∈ q :: rest', '&' ∉ x :=
        fun x hx => h x (List.mem_cons_of_mem p hx)
      rw [show joinAmp (p :: q :: rest') = p ++ '&' :: joinAmp (q :: rest') from rfl]
      have hIH := ih hrest (by simp)
      simp only [splitAmp] at hIH
      simp only [splitAmp, splitAmpA_append _ _ hpp]
      rw [List.cons.injEq]
      exact ⟨rfl, hIH⟩

theorem splitEq_append (k v : List Char) (hk : '=' ∉ k) :
    splitEq (k ++ '=' :: v) = (k, v) := by
  induction k with
  | nil => simp [splitEq]
  | cons c k' ih =>
    have hc : ¬(c = '=') := fun h => hk (h ▸ List.mem_cons_self c k')
    have hk' : '=' ∉ k' := fun h => hk (List.mem_cons_of_mem c h)
    simp [splitEq, hc, ih hk']

theorem splitEq_props (l : List Char) :
    (∀ c ∈ (splitEq l).1, c ∈ l) ∧ (∀ c ∈ (splitEq l).2, c ∈ l) ∧
    '=' ∉ (splitEq l).1 := by
  induction l with
  | nil => exact ⟨by simp [splitEq], by simp [splitEq], by simp [splitEq]⟩
  | cons c rest ih =>
    by_cases hc : c = '='
    · subst hc
      refine ⟨by simp [splitEq], ?_, by simp [splitEq]⟩
      simp only [splitEq, if_pos rfl]
      exact fun x hx => List.mem_cons_of_mem _ hx
    · refine ⟨?_, ?_, ?_⟩
      · simp only [splitEq, if_neg hc]
        intro x hx
        rcases List.mem_cons.mp hx with rfl | h1
        · exact List.mem_cons_self x rest
        · exact List.mem_cons_of_mem _ (ih.1 x h1)
      · simp only [splitEq, if_neg hc]
        exact fun x hx => List.mem_cons_of_mem _ (ih.2.1 x hx)
      · simp only [splitEq, if_neg hc]
        intro hmem
        rcases List.mem_cons.mp hmem with h1 | h1
        · exact hc h1.symm
        · exact ih.2.2 h1

theorem takeWhile_append_all (p : Char → Bool) (l1 l2 : List Char)
    (h : ∀ c ∈ l1, p c = true) :
    (l1 ++ l2).takeWhile p = l1 ++ l2.takeWhile p := by
  induction l1 with
  | nil => simp
  | cons c rest ih =>
    rw [List.cons_append, List.takeWhile_cons, if_pos (h c (List.mem_cons_self c rest)),
      ih (fun x hx => h x (List.mem_cons_of_mem c hx)), List.cons_append]

theorem queryPairs_props (q : List Char) (hq : ∀ c ∈ q, c ≠ '%' ∧ c ≠ '+') :
    ∀ pr ∈ queryPairs q,
      (∀ c ∈ pr.1, c ∈ q) ∧ (∀ c ∈ pr.2, c ∈ q) ∧ '=' ∉ pr.1 ∧
      '&' ∉ pr.1 ∧ '&' ∉ pr.2 := by
  intro pr hpr
  rcases List.mem_filterMap.mp hpr with ⟨piece, hpiece, hsome⟩
  by_cases hemp : piece = []
  · simp [hemp] at hsome
  · simp only [if_neg hemp] at hsome
    have hamp := splitAmp_pieces q piece hpiece
    have hsub := splitEq_props piece
    have hk : ∀ c ∈ (splitEq piece).1, c ∈ q := fun c hc => hamp.2 c (hsub.1 c hc)
    have hv : ∀ c ∈ (splitEq piece).2, c ∈ q := fun c hc => hamp.2 c (hsub.2.1 c hc)
    have hdk : formDecode (splitEq piece).1 = (splitEq piece).1 :=
      formDecode_id _ (fun c hc => hq c (hk c hc))
    have hdv : formDecode (splitEq piece).2 = (splitEq piece).2 :=
      formDecode_id _ (fun c hc => hq c (hv c hc))
    have hpr' : pr = ((splitEq piece).1, (splitEq piece).2) := by
      rw [hdk, hdv] at hsome
      exact (Option.some.injEq _ _ ▸ hsome).symm
    subst hpr'
    refine ⟨hk, hv, hsub.2.2, ?_, ?_⟩
    · intro hcon
      exact hamp.1 (hsub.1 _ hcon)
    · intro hcon
      exact hamp.1 (hsub.2.1 _ hcon)

theorem filterMap_some_id {α : Type} (f : α → Option α) (l : List α)
    (h : ∀ a ∈ l, f a = some a) : l.filterMap f = l := by
  induction l with
  | nil => rfl
  | cons a rest ih =>
    simp [List.filterMap_cons, h a (List.mem_cons_self a rest),
      ih (fun x hx => h x (List.mem_cons_of_mem a hx))]

theorem queryPairs_joinAmp (ps : List (List Char × List Char))
    (hps : ∀ pr ∈ ps, '&' ∉ pr.1 ∧ '&' ∉ pr.2 ∧ '=' ∉ pr.1 ∧
      (∀ c ∈ pr.1, c ≠ '%' ∧ c ≠ '+') ∧ (∀ c ∈ pr.2, c ≠ '%' ∧ c ≠ '+'))
    (hne : ps ≠ []) :
    queryPairs (joinAmp (ps.map (fun kv => kv.1 ++ '=' :: kv.2))) = ps := by
  have hpieces : ∀ p ∈ ps.map (fun kv => kv.1 ++ '=' :: kv.2), '&' ∉ p := by
    intro p hp
    rcases List.mem_map.mp hp with ⟨pr, hpr, rfl⟩
    have h := hps pr hpr
    intro hcon
    rcases List.mem_append.mp hcon with h1 | h1
    · exact h.1 h1
    · rcases List.mem_cons.mp h1 with h2 | h2
      · exact absurd h2 (by decide)
      · exact h.2.1 h2
  unfold queryPairs
  rw [splitAmp_joinAmp _ hpieces (by simpa using hne), List.filterMap_map]
  apply filterMap_some_id
  intro pr hpr
  have h := hps pr hpr
  have hne2 : ¬(pr.1 ++ '=' :: pr.2 = []) := by simp
  simp only [Function.comp_apply, if_neg hne2, splitEq_append _ _ h.2.2.1,
    formDecode_id _ h.2.2.2.1, formDecode_id _ h.2.2.2.2]

theorem queryEncodeChar_ok (c : Char) (h : queryCharOk c = true) :
    queryEncodeChar c = [c] := by
  unfold queryEncodeChar
  rw [if_neg]
  intro hcon
  unfold queryCharOk at h
  simp only [Bool.and_eq_true, Bool.or_eq_true, decide_eq_true_eq, bne_iff_ne,
    ne_eq, beq_iff_eq] at h hcon
  omega

theorem queryEncode_id (l : List Char) (h : ∀ c ∈ l, queryCharOk c = true) :
    queryEncode l = l := by
  induction l with
  | nil => rfl
  | cons c rest ih =>
    have h1 := queryEncodeChar_ok c (h c (List.mem_cons_self c rest))
    have h2 := ih (fun x hx => h x (List.mem_cons_of_mem c hx))
    unfold queryEncode at h2 ⊢
    rw [List.map_cons]
    simp [h1, h2]

theorem hostCharOk_pred (c : Char) (hc : hostCharOk c = true) :
    hostPred c = true := by
  unfold hostPred
  by_cases h1 : c = '/'
  · subst h1; exact absurd hc (by decide)
  · by_cases h2 : c = '?'
    · subst h2; exact absurd hc (by decide)
    · by_cases h3 : c = '#'
      · subst h3; exact absurd hc (by decide)
      · simp [h1, h2, h3]

theorem pathCharOk_pred (c : Char) (hc : pathCharOk c = true) :
    pathPred c = true := by
  unfold pathPred
  by_cases h2 : c = '?'
  · subst h2; exact absurd hc (by decide)
  · by_cases h3 : c = '#'
    · subst h3; exact absurd hc (by decide)
    · simp [h2, h3]

/-- Serializing a well-formed model URL and parsing it back returns the same
URL (the analogue of `Url::parse(url.to_string())` being the identity on
already-parsed URLs). -/
theorem parseRest2_cons_slash (host tl : List Char) :
    parseRest2 host ('/' :: tl) =
      if (('/' :: tl).takeWhile pathPred).all pathCharOk then
        parseRest3 host (('/' :: tl).takeWhile pathPred)
          (('/' :: tl).drop (('/' :: tl).takeWhile pathPred).length)
      else none := by
  simp [parseRest2]

theorem parseRest3_query (host path q : List Char) :
    parseRest3 host path ('?' :: q) =
      if q.all queryCharOk then some { host := host, path := path, query := some q }
      else none := by
  simp [parseRest3]

theorem parseHostRest_eval (host pr qpart : List Char)
    (hh : host ≠ []) (hhc : ∀ c ∈ host, hostCharOk c = true)
    (hpc : ∀ c ∈ '/' :: pr, pathCharOk c = true)
    (hqtwp : qpart.takeWhile pathPred = []) :
    parseHostRest (host ++ (('/' :: pr) ++ qpart))
      = parseRest3 host ('/' :: pr) qpart := by
  have hprpred : ∀ c ∈ pr, pathPred c = true :=
    fun c hc => pathCharOk_pred c (hpc c (List.mem_cons_of_mem _ hc))
  have hhtw : (host ++ (('/' :: pr) ++ qpart)).takeWhile hostPred = host := by
    rw [takeWhile_append_all _ _ _ (fun c hc => hostCharOk_pred c (hhc c hc))]
    rw [List.cons_append, List.takeWhile_cons]
    rw [if_neg (by simp [hostPred])]
    simp
  unfold parseHostRest
  rw [hhtw, List.drop_left]
  rw [if_pos (by
    simp only [Bool.and_eq_true, List.all_eq_true]
    exact ⟨by simpa [List.isEmpty_iff] using hh, hhc⟩)]
  rw [List.cons_append, parseRest2_cons_slash]
  have hptw : ('/' :: (pr ++ qpart)).takeWhile pathPred = '/' :: pr := by
    rw [List.takeWhile_cons, if_pos (by decide)]
    rw [takeWhile_append_all _ _ _ hprpred, hqtwp, List.append_nil]
  rw [hptw]
  rw [if_pos (List.all_eq_true.mpr hpc)]
  rw [show ('/' :: (pr ++ qpart)).drop ('/' :: pr).length = qpart by
    rw [show ('/' :: (pr ++ qpart)) = ('/' :: pr) ++ qpart by simp]
    exact List.drop_left _ _]

theorem parseUrl_mk_append (R : List Char) :
    parseUrl ⟨"http://".data ++ R⟩ = parseHostRest R := by
  unfold parseUrl
  have htake : ("http://".data ++ R).take 7 = "http://".data := by
    rw [show (7 : Nat) = ("http://".data).length from rfl]
    exact List.take_left _ _
  have hdrop : ("http://".data ++ R).drop 7 = R := by
    rw [show (7 : Nat) = ("http://".data).length from rfl]
    exact List.drop_left _ _
  simp [htake, hdrop]

theorem parse_toStringUrl (u : UrlM)
    (hh : u.host ≠ []) (hhc : ∀ c ∈ u.host, hostCharOk c = true)
    (hp : ∃ r, u.path = '/' :: r) (hpc : ∀ c ∈ u.path, pathCharOk c = true)
    (hq : ∀ q, u.query = some q → ∀ c ∈ q, queryCharOk c = true) :
    parseUrl (toStringUrl u) = some u := by
  obtain ⟨pr, hpath⟩ := hp
  obtain ⟨host, path, query⟩ := u
  simp only at hpath hhc hpc hq hh
  subst hpath
  cases query with
  | none =>
    have hdata : toStringUrl ⟨host, '/' :: pr, none⟩
        = ⟨"http://".data ++ (host ++ (('/' :: pr) ++ []))⟩ := by
      simp [toStringUrl, List.append_assoc]
    rw [hdata, parseUrl_mk_append,
      parseHostRest_eval host pr [] hh hhc hpc rfl]
    rfl
  | some q =>
    have hdata : toStringUrl ⟨host, '/' :: pr, some q⟩
        = ⟨"http://".data ++ (host ++ (('/' :: pr) ++ ('?' :: q)))⟩ := by
      simp [toStringUrl, List.append_assoc]
    rw [hdata, parseUrl_mk_append,
      parseHostRest_eval host pr ('?' :: q) hh hhc hpc rfl,
      parseRest3_query, if_pos (List.all_eq_true.mpr (hq q rfl))]

theorem parseRest3_nil (host path : List Char) :
    parseRest3 host path [] = some { host := host, path := path, query := none } := rfl

theorem parseRest3_cons (host path : List Char) (c : Char) (q : List Char) :
    parseRest3 host path (c :: q) =
      if c = '?' then
        if q.all queryCharOk then some { host := host, path := path, query := some q }
        else none
      else none := rfl

theorem parseRest2_nil (host : List Char) :
    parseRest2 host [] = some { host := host, path := ['/'], query := none } := rfl

theorem parseRest2_cons (host : List Char) (c : Char) (tl : List Char) :
    parseRest2 host (c :: tl) =
      if c = '?' then
        if tl.all queryCharOk then some { host := host, path := ['/'], query := some tl }
        else none
      else if c = '/' then
        if ((c :: tl).takeWhile pathPred).all pathCharOk then
          parseRest3 host ((c :: tl).takeWhile pathPred)
            ((c :: tl).drop ((c :: tl).takeWhile pathPred).length)
        else none
      else none := rfl

theorem parseRest3_wf (host path rest3 : List Char) (m : UrlM)
    (h : parseRest3 host path rest3 = some m) :
    m.host = host ∧ m.path = path ∧
    (∀ q, m.query = some q → ∀ c ∈ q, queryCharOk c = true) := by
  cases rest3 with
  | nil =>
    rw [parseRest3_nil] at h
    have hm := Option.some.inj h
    subst hm
    exact ⟨rfl, rfl, fun q hq => by simp at hq⟩
  | cons c q =>
    rw [parseRest3_cons] at h
    split_ifs at h with h1 h2
    have hm := Option.some.inj h
    subst hm
    refine ⟨rfl, rfl, fun q' hq' => ?_⟩
    have hqq : q = q' := by simpa using hq'
    subst hqq
    exact List.all_eq_true.mp h2

theorem parseRest2_wf (host rest2 : List Char) (m : UrlM)
    (h : parseRest2 host rest2 = some m) :
    m.host = host ∧ (∃ r, m.path = '/' :: r) ∧
    (∀ c ∈ m.path, pathCharOk c = true) ∧
    (∀ q, m.query = some q → ∀ c ∈ q, queryCharOk c = true) := by
  cases rest2 with
  | nil =>
    rw [parseRest2_nil] at h
    have hm := Option.some.inj h
    subst hm
    refine ⟨rfl, ⟨[], rfl⟩, ?_, fun q hq => by simp at hq⟩
    intro c hc
    have hc' : c = '/' := by simpa using hc
    subst hc'
    decide
  | cons c tl =>
    rw [parseRest2_cons] at h
    split_ifs at h with h1 h2 h3 h4
    · have hm := Option.some.inj h
      subst hm
      refine ⟨rfl, ⟨[], rfl⟩, ?_, fun q' hq' => ?_⟩
      · intro x hx
        have hx' : x = '/' := by simpa using hx
        subst hx'
        decide
      · have htl : tl = q' := by simpa using hq'
        subst htl
        exact List.all_eq_true.mp h2
    · subst h3
      have hw := parseRest3_wf host (('/' :: tl).takeWhile pathPred)
        (('/' :: tl).drop (('/' :: tl).takeWhile pathPred).length) m h
      have hpath : m.path = ('/' :: tl).takeWhile pathPred := hw.2.1
      refine ⟨hw.1, ?_, ?_, hw.2.2⟩
      · refine ⟨tl.takeWhile pathPred, ?_⟩
        rw [hpath, List.takeWhile_cons, if_pos (by decide)]
      · rw [hpath]
        exact List.all_eq_true.mp h4

theorem parseHostRest_wf (rest : List Char) (m : UrlM)
    (h : parseHostRest rest = some m) :
    m.host ≠ [] ∧ (∀ c ∈ m.host, hostCharOk c = true) ∧
    (∃ r, m.path = '/' :: r) ∧ (∀ c ∈ m.path, pathCharOk c = true) ∧
    (∀ q, m.query = some q → ∀ c ∈ q, queryCharOk c = true) := by
  unfold parseHostRest at h
  split_ifs at h with hg
  have hw := parseRest2_wf _ _ _ h
  simp only [Bool.and_eq_true, List.all_eq_true, Bool.not_eq_true'] at hg
  refine ⟨?_, ?_, hw.2.1, hw.2.2.1, hw.2.2.2⟩
  · rw [hw.1]
    intro hcon
    rw [hcon] at hg
    simp at hg
  · rw [hw.1]
    exact hg.2

/-- Every successfully parsed model URL is well-formed: nonempty valid host,
path starting with `/` of valid characters, and valid query characters. -/
theorem parseUrl_wellFormed (s : String) (m : UrlM) (h : parseUrl s = some m) :
    m.host ≠ [] ∧ (∀ c ∈ m.host, hostCharOk c = true) ∧
    (∃ r, m.path = '/' :: r) ∧ (∀ c ∈ m.path, pathCharOk c = true) ∧
    (∀ q, m.query = some q → ∀ c ∈ q, queryCharOk c = true) := by
  unfold parseUrl at h
  split_ifs at h
  exact parseHostRest_wf _ _ h

theorem joinAmp_chars (ps : List (List Char)) (P : Char → Prop)
    (hP : ∀ p ∈ ps, ∀ c ∈ p, P c) (hamp : P '&') :
    ∀ c ∈ joinAmp ps, P c := by
  induction ps with
  | nil => intro c hc; simp [joinAmp] at hc
  | cons p rest ih =>
    intro c hc
    cases rest with
    | nil =>
      rw [show joinAmp [p] = p from rfl] at hc
      exact hP p (List.mem_cons_self _ _) c hc
    | cons p2 rest2 =>
      rw [show joinAmp (p :: p2 :: rest2) = p ++ '&' :: joinAmp (p2 :: rest2)
        from rfl] at hc
      rcases List.mem_append.mp hc with h1 | h1
      · exact hP p (List.mem_cons_self _ _) c h1
      · rcases List.mem_cons.mp h1 with rfl | h2
        · exact hamp
        · exact ih (fun x hx => hP x (List.mem_cons_of_mem _ hx)) c h2

/-- C7 (amended): `clean_url` returns unparseable inputs unchanged; and for
every parsed URL whose raw query contains neither `%` nor `+`, the cleaned
URL keeps the host and path, its query pairs are exactly the input's decoded
pairs with the tracking-parameter-keyed ones removed (in order), and cleaning
is idempotent.  (On queries containing `%`-escapes or `+`, idempotence fails —
see the counterexample.) -/
theorem clean_url_correct (b : TrackerBlocker) (u : String) :
    (parseUrl u = none → clean_url b u = u) ∧
    (∀ m, parseUrl u = some m →
      (∀ c ∈ m.query.getD [], c ≠ '%' ∧ c ≠ '+') →
      ∃ m', parseUrl (clean_url b u) = some m' ∧
        m'.host = m.host ∧ m'.path = m.path ∧
        queryPairs (m'.query.getD []) =
          (queryPairs (m.query.getD [])).filter
            (fun kv => !(is_tracking_parameter b ⟨kv.1⟩)) ∧
        clean_url b (clean_url b u) = clean_url b u) := by
  constructor
  · intro h
    unfold clean_url
    rw [h]
  · intro m hm hq
    obtain ⟨hh, hhc, hp, hpc, hqok⟩ := parseUrl_wellFormed u m hm
    have hqchars : ∀ c ∈ m.query.getD [], queryCharOk c = true := by
      cases hmq : m.query with
      | none => intro c hc; simp at hc
      | some q0 =>
        intro c hc
        exact hqok q0 hmq c (by simpa using hc)
    have hprops := queryPairs_props (m.query.getD []) hq
    have hcu : clean_url b u =
        (if ((queryPairs (m.query.getD [])).filter
              (fun kv => !(is_tracking_parameter b ⟨kv.1⟩))).isEmpty then
          toStringUrl { m with query := none }
        else
          toStringUrl { m with query := some (queryEncode (joinAmp
            (((queryPairs (m.query.getD [])).filter
              (fun kv => !(is_tracking_parameter b ⟨kv.1⟩))).map
                (fun kv => kv.1 ++ '=' :: kv.2)))) }) := by
      unfold clean_url
      rw [hm]
    by_cases hke : ((queryPairs (m.query.getD [])).filter
        (fun kv => !(is_tracking_parameter b ⟨kv.1⟩))) = []
    · have hkeB : ((queryPairs (m.query.getD [])).filter
          (fun kv => !(is_tracking_parameter b ⟨kv.1⟩))).isEmpty = true := by
        rw [hke]; rfl
      rw [hcu, if_pos hkeB]
      have hparse1 : parseUrl (toStringUrl { m with query := none })
          = some { m with query := none } := by
        apply parse_toStringUrl <;> try assumption
        intro q0 hq0
        simp at hq0
      refine ⟨{ m with query := none }, hparse1, rfl, rfl, ?_, ?_⟩
      · rw [hke]; rfl
      · unfold clean_url
        rw [hparse1]
        rfl
    · have hkeB : ¬(((queryPairs (m.query.getD [])).filter
          (fun kv => !(is_tracking_parameter b ⟨kv.1⟩))).isEmpty = true) := by
        simpa [List.isEmpty_iff] using hke
      have hkept : ∀ pr ∈ (queryPairs (m.query.getD [])).filter
          (fun kv => !(is_tracking_parameter b ⟨kv.1⟩)),
          (∀ c ∈ pr.1, c ∈ m.query.getD []) ∧ (∀ c ∈ pr.2, c ∈ m.query.getD []) ∧
          '=' ∉ pr.1 ∧ '&' ∉ pr.1 ∧ '&' ∉ pr.2 :=
        fun pr hpr => hprops pr (List.mem_filter.mp hpr).1
      have hpairprops : ∀ pr ∈ (queryPairs (m.query.getD [])).filter
          (fun kv => !(is_tracking_parameter b ⟨kv.1⟩)),
          '&' ∉ pr.1 ∧ '&' ∉ pr.2 ∧ '=' ∉ pr.1 ∧
          (∀ c ∈ pr.1, c ≠ '%' ∧ c ≠ '+') ∧ (∀ c ∈ pr.2, c ≠ '%' ∧ c ≠ '+') := by
        intro pr hpr
        have h1 := hkept pr hpr
        exact ⟨h1.2.2.2.1, h1.2.2.2.2, h1.2.2.1,
          fun c hc => hq c (h1.1 c hc), fun c hc => hq c (h1.2.1 c hc)⟩
      have hJchars : ∀ c ∈ joinAmp
          (((queryPairs (m.query.getD [])).filter
            (fun kv => !(is_tracking_parameter b ⟨kv.1⟩))).map
              (fun kv => kv.1 ++ '=' :: kv.2)),
          queryCharOk c = true := by
        apply joinAmp_chars
        · intro p hpmem c hc
          rcases List.mem_map.mp hpmem with ⟨pr, hpr, rfl⟩
          have h1 := hkept pr hpr
          rcases List.mem_append.mp hc with h2 | h2
          · exact hqchars c (h1.1 c h2)
          · rcases List.mem_cons.mp h2 with rfl | h3
            · decide
            · exact hqchars c (h1.2.1 c h3)
        · decide
      have henc : queryEncode (joinAmp
          (((queryPairs (m.query.getD [])).filter
            (fun kv => !(is_tracking_parameter b ⟨kv.1⟩))).map
              (fun kv => kv.1 ++ '=' :: kv.2)))
        = joinAmp (((queryPairs (m.query.getD [])).filter
            (fun kv => !(is_tracking_parameter b ⟨kv.1⟩))).map
              (fun kv => kv.1 ++ '=' :: kv.2)) :=
        queryEncode_id _ hJchars
      have hQP : queryPairs (joinAmp
          (((queryPairs (m.query.getD [])).filter
            (fun kv => !(is_tracking_parameter b ⟨kv.1⟩))).map
              (fun kv => kv.1 ++ '=' :: kv.2)))
        = (queryPairs (m.query.getD [])).filter
            (fun kv => !(is_tracking_parameter b ⟨kv.1⟩)) :=
        queryPairs_joinAmp _ hpairprops hke
      have hfilter : ((queryPairs (m.query.getD [])).filter
            (fun kv => !(is_tracking_parameter b ⟨kv.1⟩))).filter
            (fun kv => !(is_tracking_parameter b ⟨kv.1⟩))
          = (queryPairs (m.query.getD [])).filter
            (fun kv => !(is_tracking_parameter b ⟨kv.1⟩)) :=
        List.filter_eq_self.mpr (fun pr hpr => (List.mem_filter.mp hpr).2)
      rw [hcu, if_neg hkeB, henc]
      have hparse2 : parseUrl (toStringUrl { m with query := some (joinAmp
          (((queryPairs (m.query.getD [])).filter
            (fun kv => !(is_tracking_parameter b ⟨kv.1⟩))).map
              (fun kv => kv.1 ++ '=' :: kv.2))) })
          = some { m with query := some (joinAmp
          (((queryPairs (m.query.getD [])).filter
            (fun kv => !(is_tracking_parameter b ⟨kv.1⟩))).map
              (fun kv => kv.1 ++ '=' :: kv.2))) } := by
        apply parse_toStringUrl <;> try assumption
        intro q0 hq0 c hc
        have hjq : joinAmp (((queryPairs (m.query.getD [])).filter
            (fun kv => !(is_tracking_parameter b ⟨kv.1⟩))).map
              (fun kv => kv.1 ++ '=' :: kv.2)) = q0 := by simpa using hq0
        exact hJchars c (hjq ▸ hc)
      refine ⟨_, hparse2, rfl, rfl, ?_, ?_⟩
      · simpa using hQP
      · unfold clean_url
        rw [hparse2]
        simp only [Option.getD_some]
        rw [hQP, hfilter, if_neg hkeB, henc]

/-- Counterexample to C7's idempotence clause: on `http://x/?a=b%2Bc` (a
query value with a percent-encoded `+`), the first cleaning decodes the pair
and re-serializes it as the raw `+`, and the second cleaning decodes that `+`
as a space and re-encodes it as `%20` — so cleaning twice differs from
cleaning once. -/
theorem clean_url_not_idempotent :
    clean_url vocabBlocker (clean_url vocabBlocker "http://x/?a=b%2Bc")
      ≠ clean_url vocabBlocker "http://x/?a=b%2Bc" ∧
    clean_url vocabBlocker "http://x/?a=b%2Bc" = "http://x/?a=b+c" ∧
    clean_url vocabBlocker "http://x/?a=b+c" = "http://x/?a=b%20c" :=
  ⟨by decide, by decide, by decide⟩

/-- Witness for C7 (amended) at a concrete URL: `utm_source` is stripped,
`a=2` survives in place, and a second cleaning changes nothing. -/
theorem clean_url_correct_witness :
    clean_url vocabBlocker "http://x/p?utm_source=1&a=2" = "http://x/p?a=2" ∧
    clean_url vocabBlocker (clean_url vocabBlocker "http://x/p?utm_source=1&a=2")
      = clean_url vocabBlocker "http://x/p?utm_source=1&a=2" := by
  have h := (clean_url_correct vocabBlocker "http://x/p?utm_source=1&a=2").2
    { host := "x".data, path := "/p".data, query := some "utm_source=1&a=2".data }
    (by decide) (by decide)
  obtain ⟨m', _, _, _, _, hid⟩ := h
  exact ⟨by decide, hid⟩

end DeTrack
